import Mathlib

/-!
Verification of the pdf2rmd conversion pipeline (`src/main.py`).

The program is a four-stage orchestration pipeline:
  Stage A (`_copy_pdf`)          — stage the input PDF into `assets/in/`;
  Stage B (`_pdf_to_png`)        — run `pdftoppm`, then rename `page-<n>.png`
                                   outputs to the canonical `<n>.png` names;
  Stage C (`_run_nougat`)        — run the `nougat` OCR tool (best effort);
  Stage D (`_generate_base_rmd`) — write the final `.Rmd` document.

The shallow embedding below models directories as finite sets of filenames
(`Finset String`), file systems as partial maps from paths to contents, and
external-tool behaviour (exit codes, error streams, files produced, directory
enumeration order) as explicit parameters.  All string processing is defined
over `List Char`, matching Python's code-point-level string operations.
-/

/-! ### Basic character and string helpers -/

/-- The ASCII whitespace characters stripped by Python's `str.rstrip()`
(we restrict attention to the ASCII subset of Python's whitespace). -/
def pyWhitespace (c : Char) : Bool :=
  c = ' ' || c = '\t' || c = '\n' || c = '\x0d' || c = '\x0b' || c = '\x0c'

/-- Python `str.rstrip()`: remove trailing whitespace. -/
def rstrip (s : String) : String :=
  ⟨(s.data.reverse.dropWhile pyWhitespace).reverse⟩

/-- Split a list of characters into its maximal leading run of decimal digits
and the remainder (the `\d+`-with-backtracking step of `re.search`). -/
def takeDigits : List Char → List Char × List Char
  | [] => ([], [])
  | c :: cs =>
    if c.isDigit then
      let p := takeDigits cs
      (c :: p.1, p.2)
    else ([], c :: cs)

/-- Numeric value of a list of decimal digit characters, most significant
first: Python's `int(...)` on the matched group. -/
def digitsVal (ds : List Char) : Nat :=
  ds.foldl (fun a c => 10 * a + (c.toNat - 48)) 0

/-- The scan underlying `re.search(r'page-(\d+)\.png', name)`: find the
leftmost position where the literal `page-` is followed by a nonempty digit
run that is immediately followed by `.png`, and return the digit run's value.
A match attempt at a given start takes the maximal digit run (backtracking a
greedy `\d+` to a shorter run cannot help, since the following character
would then still be a digit, not `.`). -/
def pageSearchAux : List Char → Option Nat
  | [] => none
  | c :: cs =>
    if List.isPrefixOf ('p' :: 'a' :: 'g' :: 'e' :: '-' :: []) (c :: cs) then
      let rest := cs.drop 4
      let p := takeDigits rest
      if p.1 ≠ [] ∧ List.isPrefixOf ('.' :: 'p' :: 'n' :: 'g' :: []) p.2 then
        some (digitsVal p.1)
      else pageSearchAux cs
    else pageSearchAux cs

/-- Python `re.search(r'page-(\d+)\.png', name)` followed by `int(match.group(1))`
(`_pdf_to_png`, src/main.py lines 111–113). -/
def extractPageNum (name : String) : Option Nat :=
  pageSearchAux name.data

/-- Whether a filename matches the glob pattern `page-*.png`
(`self.png_dir.glob("page-*.png")`, src/main.py line 108). -/
def globPagePng (name : String) : Bool :=
  List.isPrefixOf ('p' :: 'a' :: 'g' :: 'e' :: '-' :: []) name.data &&
    List.isSuffixOf ('.' :: 'p' :: 'n' :: 'g' :: []) (name.data.drop 5)

/-- Whether a filename matches the glob pattern `*.png`. -/
def globPng (name : String) : Bool :=
  List.isSuffixOf ('.' :: 'p' :: 'n' :: 'g' :: []) name.data

/-- Whether a filename matches the glob pattern `*.mmd` (Nougat transcripts). -/
def globMmd (name : String) : Bool :=
  List.isSuffixOf ('.' :: 'm' :: 'm' :: 'd' :: []) name.data

/-! ### Decimal rendering of naturals

The code names canonical page images with Python's `f"{page_num}.png"`,
i.e. the decimal rendering of an `int`; in Lean this is `Nat.repr`.  We
relate `Nat.repr` to an explicit digit list in order to reason about it. -/

/-- The decimal digit characters of `n`, most significant first. -/
def decChars (n : Nat) : List Char :=
  if _h : n < 10 then [Nat.digitChar n]
  else decChars (n / 10) ++ [Nat.digitChar (n % 10)]
termination_by n
decreasing_by exact Nat.div_lt_self (by omega) (by omega)

/-! ### Stage B: the rename pass (`_pdf_to_png`, src/main.py lines 106–115)

`pdftoppm` is invoked with output name prefix `<png_dir>/page`, so it
produces files named `page-<n>.png`.  The code then renames every file
matching the glob `page-*.png` whose name the regex search matches to
`<n>.png`; `Path.rename` overwrites an existing target (POSIX). -/

/-- The canonical page-image name `f"{page_num}.png"`. -/
def canonicalName (n : Nat) : String := Nat.repr n ++ ".png"

/-- The rasterizer's native output name for page `n` (`page-<n>.png`). -/
def nativeName (n : Nat) : String := "page-" ++ Nat.repr n ++ ".png"

/-- One iteration of the rename loop: if the regex search on the filename
succeeds, the file is renamed to the canonical name (overwriting any file of
that name); otherwise the directory is unchanged. -/
def renameStep (acc : Finset String) (f : String) : Finset String :=
  match extractPageNum f with
  | some n => insert (canonicalName n) (acc.erase f)
  | none => acc

/-- The full rename pass: iterate `renameStep` over the files matching
`page-*.png`, in sorted order (`sorted(self.png_dir.glob("page-*.png"))`). -/
def renamePass (d : Finset String) : Finset String :=
  ((d.filter fun n => globPagePng n).sort (· ≤ ·)).foldl renameStep d

/-- The number of files matching `*.png` in a directory
(`len(sorted(self.png_dir.glob("*.png")))`). -/
def countPng (d : Finset String) : Nat :=
  (d.filter fun n => globPng n).card

/-! ### The Stage B function `_pdf_to_png` (src/main.py lines 84–128)

The external `pdftoppm` invocation is modelled by three parameters: whether
the executable is missing (`FileNotFoundError` on `subprocess.run`), the
tool's exit code, and its standard-error stream; `dirAfterTool` is the
content of `assets/out/png/` after the subprocess attempt.  The function
returns the stage's boolean outcome, the final directory, the reported image
count (printed on success only), and the printed messages. -/

structure StageBResult where
  ok : Bool
  dir : Finset String
  reported : Option Nat
  log : List String

def pdf_to_png (missing : Bool) (exitCode : Nat) (errStream : String)
    (dirAfterTool : Finset String) : StageBResult :=
  if missing then
    { ok := false, dir := dirAfterTool, reported := none,
      log := ["  ✗ pdftoppm not found. Please install poppler-utils:",
              "    sudo apt-get install poppler-utils"] }
  else if exitCode ≠ 0 then
    { ok := false, dir := dirAfterTool, reported := none,
      log := ["  ✗ pdftoppm failed: " ++ errStream] }
  else
    let d := renamePass dirAfterTool
    { ok := true, dir := d, reported := some (countPng d),
      log := ["  ✓ Created " ++ Nat.repr (countPng d) ++ " PNG images"] }

/-- Spec-side predicate (from the claim's words, not from the code): a
"final canonical image" is a file named by a bare page number plus the
`.png` extension. -/
def isBareNumberPng (s : String) : Bool :=
  globPng s && !(s.data.take (s.data.length - 4)).isEmpty &&
    (s.data.take (s.data.length - 4)).all Char.isDigit

/-! ### Stage C (`_run_nougat`, src/main.py lines 130–168) and
Stage D (`_generate_base_rmd`, lines 170–220)

Stage C returns `False` only when `which nougat` exits non-zero; every other
path (nougat exit code nonzero, no `.mmd` output, an exception escaping the
`try` block) returns `True`.  Stage D writes a fixed YAML header followed by
either the first `.mmd` transcript in `glob` enumeration order, or a
placeholder section.  `Path.glob` enumerates in OS directory order, which is
arbitrary; we model the enumeration of `assets/out/nougat/` as an explicit
list of (filename, file text) pairs. -/

inductive Stage
  | A
  | B
  | C
  | D
deriving DecidableEq

structure RunEnv where
  copyOk : Bool
  rasterMissing : Bool
  rasterExit : Nat
  rasterErr : String
  pngAfterTool : Finset String
  ocrRaised : Bool
  whichExit : Nat
  nougatExit : Nat
  nougatListing : List (String × String)
  writeOk : Bool
  pdfName : String
deriving DecidableEq

def run_nougat (env : RunEnv) : Bool :=
  if env.ocrRaised then true
  else if env.whichExit ≠ 0 then false
  else if (env.nougatListing.filter fun f => globMmd f.1) ≠ [] then true
  else true

/-- The dedented, left-stripped YAML header plus setup chunk written by
`_generate_base_rmd` before the body (src/main.py lines 177–200). -/
def rmdHeader (pdfName : String) : String :=
  "---\ntitle: \"" ++ pdfName ++
    "\"\nauthor: \"Generated by pdf2rmd\"\ndate: \"`r Sys.Date()`\"\noutput:\n  pdf_document:\n    latex_engine: lualatex\n  html_document:\n    df_print: paged\nheader-includes:\n  - \\usepackage\x7bfontspec\x7d\n  - \\setmainfont\x7bDejaVu Serif\x7d\n  - \\setsansfont\x7bDejaVu Sans\x7d\n  - \\setmonofont\x7bDejaVu Sans Mono\x7d\n---\n\n```\x7br setup, include=FALSE\x7d\nknitr::opts_chunk$set(echo = TRUE, message = FALSE, warning = FALSE, fig.align = \"center\")\nlibrary(knitr)\nlibrary(magrittr)\n```\n\n"

def transcriptMarker : String := "\n<!-- Nougat OCR Transcript -->\n\n"

/-- The body written after the header: the first `.mmd` file of the
enumeration, right-stripped with a single newline appended, or the
placeholder with the `*.png` count. -/
def rmdBody (nougatListing : List (String × String)) (pngDir : Finset String) : String :=
  match nougatListing.filter (fun f => globMmd f.1) with
  | (_, text) :: _ => transcriptMarker ++ (rstrip text ++ "\n")
  | [] =>
    "\n<!-- Content Placeholder -->\n\n" ++ "## Document Pages\n\n" ++
      ("_OCR transcript not available. Document has " ++ Nat.repr (countPng pngDir) ++
        " pages._\n\n")

def generate_base_rmd (pdfName : String) (nougatListing : List (String × String))
    (pngDir : Finset String) (writeOk : Bool) : Bool × Option String :=
  if writeOk then (true, some (rmdHeader pdfName ++ rmdBody nougatListing pngDir))
  else (false, none)

structure RunResult where
  exitCode : Nat
  stages : List Stage
  rmd : Option String
deriving DecidableEq

/-- Method `PDFConverter.convert` (src/main.py lines 37–68): the four-stage pipeline
with short-circuiting on a falsy stage result. -/
def convert (env : RunEnv) : RunResult :=
  if env.copyOk = false then ⟨1, [Stage.A], none⟩
  else
    let b := pdf_to_png env.rasterMissing env.rasterExit env.rasterErr env.pngAfterTool
    if b.ok = false then ⟨1, [Stage.A, Stage.B], none⟩
    else if run_nougat env = false then ⟨1, [Stage.A, Stage.B, Stage.C], none⟩
    else
      let g := generate_base_rmd env.pdfName env.nougatListing b.dir env.writeOk
      if g.1 = false then ⟨1, [Stage.A, Stage.B, Stage.C, Stage.D], none⟩
      else ⟨0, [Stage.A, Stage.B, Stage.C, Stage.D], g.2⟩

/-! ### Entry point (`get_pdf_input` and `main`, src/main.py lines 222–261) -/

/-- POSIX `PurePath.is_absolute`: the path starts with `/`. -/
def isAbsolute (p : String) : Bool := p.data.head? == some '/'

/-- Python `Path.name`: the substring after the last `/`. -/
def nameOf (p : String) : String :=
  ⟨(p.data.reverse.takeWhile fun c => c ≠ '/').reverse⟩

/-- Python `Path.suffix`: the final dot-suffix of the last component; empty when the
name has no dot, ends with the dot, or the only dot is the leading one. -/
def suffixOf (p : String) : String :=
  let nm := (nameOf p).data
  let rev := nm.reverse
  let afterRev := rev.takeWhile fun c => c ≠ '.'
  match rev.drop afterRev.length with
  | [] => ""
  | _ :: before =>
    if afterRev.isEmpty then ""
    else if before.isEmpty then ""
    else ⟨'.' :: afterRev.reverse⟩

/-- Python `str.lower()` restricted to the ASCII range. -/
def lowerStr (s : String) : String := ⟨s.data.map Char.toLower⟩

/-- Python `Path.cwd() / pdf_path` when the argument is relative (src/main.py
lines 234–235). -/
def resolvePath (cwd p : String) : String :=
  if isAbsolute p then p else cwd ++ "/" ++ p

/-- Function `get_pdf_input` (src/main.py lines 222–249): resolve, then check
existence, then check the case-insensitive `.pdf` extension; `fsE` is the
file-existence predicate of the environment. -/
def get_pdf_input (cwd arg : String) (fsE : String → Bool) : Option String :=
  let p := resolvePath cwd arg
  if fsE p = false then none
  else if lowerStr (suffixOf p) ≠ ".pdf" then none
  else some p

/-- The four `mkdir(parents=True, exist_ok=True)` calls in
`PDFConverter.__init__` (src/main.py lines 31–35). -/
def mkdirCalls : List String :=
  ["assets/in", "assets/out", "assets/out/png", "assets/out/nougat"]

/-- Function `main` (src/main.py lines 252–261): validate, then construct the
converter (which creates the working tree) and run it.  Returns the exit
code, whether the pipeline was invoked, and the directory-creation calls
performed. -/
def mainRun (cwd arg : String) (fsE : String → Bool) (env : RunEnv) :
    Nat × Bool × List String :=
  match get_pdf_input cwd arg fsE with
  | none => (1, false, [])
  | some _ => ((convert env).exitCode, true, mkdirCalls)

/-- Stage A `_copy_pdf` (src/main.py lines 70–82) at the file-system level: `fs`
maps a path to `some` content (content stands for bytes plus the metadata
that `shutil.copy2` preserves) or `none` when absent.  If the destination
exists the copy is skipped; either way the stage reports success. -/
def copy_pdf_fs {α : Type} (src dst : String) (fs : String → Option α) :
    (String → Option α) × Bool :=
  if (fs dst).isSome then (fs, true)
  else (fun p => if p = dst then fs src else fs p, true)

/-- Path `self.copied_pdf = self.assets_in / pdf_path.name` (src/main.py
line 28). -/
def copied_pdf (pdfPath : String) : String := "assets/in/" ++ nameOf pdfPath

/-- The `pdftoppm` command line built in `_pdf_to_png` (src/main.py
lines 91–97). -/
def pdftoppm_cmd (pdfPath : String) : List String :=
  ["pdftoppm", "-png", "-r", "150", copied_pdf pdfPath, "assets/out/png/page"]

/-- The `nougat` command line built in `_run_nougat` (src/main.py
lines 142–147). -/
def nougat_cmd (pdfPath : String) : List String :=
  ["nougat", copied_pdf pdfPath, "-o", "assets/out/nougat", "--no-skipping"]

/-- Code-point lexicographic comparison of character lists (Python's `<` on
`str`). -/
def charsLt : List Char → List Char → Bool
  | _, [] => false
  | [], _ :: _ => true
  | a :: as, b :: bs =>
    if a.val < b.val then true
    else if a == b then charsLt as bs
    else false

/-- Code-point lexicographic comparison of strings. -/
def strLt (a b : String) : Bool := charsLt a.data b.data

/-- Spec-side (from the claim's words): the lexically first `.mmd` file of
the enumeration, by code-point order on names. -/
def lexFirstMmd (listing : List (String × String)) : Option (String × String) :=
  match listing.filter (fun f => globMmd f.1) with
  | [] => none
  | x :: xs => some (xs.foldl (fun b a => if strLt a.1 b.1 then a else b) x)

theorem decChars_ne_nil (n : Nat) : decChars n ≠ [] := by
  rw [decChars]
  split
  · simp
  · simp

theorem digitChar_isDigit {k : Nat} (h : k < 10) : (Nat.digitChar k).isDigit := by
  interval_cases k <;> decide

theorem digitChar_val {k : Nat} (h : k < 10) : (Nat.digitChar k).toNat - 48 = k := by
  interval_cases k <;> decide

theorem decChars_all_digit (n : Nat) : ∀ c ∈ decChars n, c.isDigit := by
  induction n using Nat.strong_induction_on with
  | _ n ih =>
    rw [decChars]
    split
    · next h =>
      intro c hc
      simp only [List.mem_singleton] at hc
      subst hc
      exact digitChar_isDigit h
    · next h =>
      intro c hc
      rcases List.mem_append.1 hc with h1 | h2
      · exact ih (n / 10) (Nat.div_lt_self (by omega) (by omega)) c h1
      · simp only [List.mem_singleton] at h2
        subst h2
        exact digitChar_isDigit (Nat.mod_lt _ (by omega))

theorem digitsVal_append_singleton (ds : List Char) (c : Char) :
    digitsVal (ds ++ [c]) = 10 * digitsVal ds + (c.toNat - 48) := by
  simp [digitsVal, List.foldl_append]

theorem digitsVal_decChars (n : Nat) : digitsVal (decChars n) = n := by
  induction n using Nat.strong_induction_on with
  | _ n ih =>
    rw [decChars]
    split
    · next h =>
      simp [digitsVal, digitChar_val h]
    · next h =>
      rw [digitsVal_append_singleton, ih (n / 10) (Nat.div_lt_self (by omega) (by omega)),
        digitChar_val (Nat.mod_lt _ (by omega))]
      omega

theorem toDigitsCore_eq (fuel : Nat) :
    ∀ (n : Nat) (ds : List Char), n < 10 ^ (fuel + 1) →
      Nat.toDigitsCore 10 (fuel + 1) n ds = decChars n ++ ds := by
  induction fuel with
  | zero =>
    intro n ds h
    have h10 : n < 10 := by simpa using h
    have hdiv : n / 10 = 0 := Nat.div_eq_of_lt h10
    rw [Nat.toDigitsCore]
    simp only [hdiv, if_pos rfl]
    rw [decChars]
    simp [Nat.mod_eq_of_lt h10, if_pos h10]
  | succ fuel ih =>
    intro n ds h
    rw [Nat.toDigitsCore]
    by_cases h10 : n < 10
    · have hdiv : n / 10 = 0 := Nat.div_eq_of_lt h10
      simp only [hdiv, if_pos rfl]
      rw [decChars]
      simp [Nat.mod_eq_of_lt h10, if_pos h10]
    · have hdiv : ¬ n / 10 = 0 := by
        intro h0
        have := Nat.div_eq_of_lt (by omega : n < 10)
        omega
      simp only [if_neg hdiv]
      have hlt : n / 10 < 10 ^ (fuel + 1) := by
        rw [Nat.div_lt_iff_lt_mul (by omega : 0 < 10)]
        calc n < 10 ^ (fuel + 1 + 1) := h
        _ = 10 ^ (fuel + 1) * 10 := by rw [pow_succ]
      rw [ih (n / 10) (Nat.digitChar (n % 10) :: ds) hlt]
      conv_rhs => rw [decChars]
      rw [dif_neg h10]
      simp

theorem repr_data (n : Nat) : (Nat.repr n).data = decChars n := by
  show (Nat.toDigits 10 n).asString.data = decChars n
  have h : n < 10 ^ (n + 1) := by
    calc n < 10 ^ n := Nat.lt_pow_self (by omega) n
    _ ≤ 10 ^ (n + 1) := Nat.pow_le_pow_right (by omega) (by omega)
  show (Nat.toDigitsCore 10 (n + 1) n []).asString.data = decChars n
  rw [toDigitsCore_eq n n [] h]
  simp [List.asString]

theorem decChars_head (n : Nat) : ∃ c t, decChars n = c :: t ∧ c.isDigit := by
  cases h : decChars n with
  | nil => exact absurd h (decChars_ne_nil n)
  | cons c t =>
    exact ⟨c, t, rfl, decChars_all_digit n c (h ▸ List.mem_cons_self c t)⟩

theorem strData_append (a b : String) : (a ++ b).data = a.data ++ b.data := rfl

theorem nativeName_data (n : Nat) :
    (nativeName n).data =
      'p' :: 'a' :: 'g' :: 'e' :: '-' :: (decChars n ++ ('.' :: 'p' :: 'n' :: 'g' :: [])) := by
  show (("page-" ++ Nat.repr n) ++ ".png").data = _
  rw [strData_append, strData_append, repr_data]
  rfl

theorem canonicalName_data (n : Nat) :
    (canonicalName n).data = decChars n ++ ('.' :: 'p' :: 'n' :: 'g' :: []) := by
  show ((Nat.repr n) ++ ".png").data = _
  rw [strData_append, repr_data]

theorem takeDigits_append_nondigit {ds : List Char} {c : Char} {r : List Char}
    (hall : ∀ x ∈ ds, x.isDigit) (hc : ¬ c.isDigit) :
    takeDigits (ds ++ c :: r) = (ds, c :: r) := by
  induction ds with
  | nil =>
    simp only [List.nil_append, takeDigits]
    rw [if_neg (by simpa using hc)]
  | cons a as ih =>
    have ha : a.isDigit := hall a (List.mem_cons_self a as)
    have ih2 := ih (fun x hx => hall x (List.mem_cons_of_mem a hx))
    simp only [List.cons_append, takeDigits, List.append_eq]
    rw [if_pos ha, ih2]

theorem pageSearchAux_page_digits (ds : List Char) (hds : ds ≠ [])
    (hall : ∀ x ∈ ds, x.isDigit) :
    pageSearchAux ('p' :: 'a' :: 'g' :: 'e' :: '-' :: (ds ++ ('.' :: 'p' :: 'n' :: 'g' :: []))) =
      some (digitsVal ds) := by
  rw [pageSearchAux]
  have hpre : List.isPrefixOf ('p' :: 'a' :: 'g' :: 'e' :: '-' :: [])
      ('p' :: 'a' :: 'g' :: 'e' :: '-' :: (ds ++ ('.' :: 'p' :: 'n' :: 'g' :: []))) = true := by
    simp [List.isPrefixOf]
  rw [if_pos hpre]
  have ht := takeDigits_append_nondigit (c := '.') (r := ('p' :: 'n' :: 'g' :: []))
    hall (by decide)
  simp only [List.drop, ht]
  rw [if_pos ⟨hds, by simp [List.isPrefixOf]⟩]

theorem extract_nativeName (n : Nat) : extractPageNum (nativeName n) = some n := by
  rw [extractPageNum, nativeName_data,
    pageSearchAux_page_digits (decChars n) (decChars_ne_nil n) (decChars_all_digit n),
    digitsVal_decChars]

theorem glob_nativeName (n : Nat) : globPagePng (nativeName n) = true := by
  rw [globPagePng, nativeName_data]
  apply Bool.and_eq_true_iff.2
  constructor
  · simp [List.isPrefixOf]
  · rw [show List.drop 5
        ('p' :: 'a' :: 'g' :: 'e' :: '-' :: (decChars n ++ ('.' :: 'p' :: 'n' :: 'g' :: []))) =
        decChars n ++ ('.' :: 'p' :: 'n' :: 'g' :: []) from rfl]
    exact List.isSuffixOf_iff_suffix.2 (List.suffix_append _ _)

theorem glob_canonicalName (n : Nat) : globPagePng (canonicalName n) = false := by
  rw [globPagePng, canonicalName_data]
  obtain ⟨c, t, hct, hd⟩ := decChars_head n
  rw [hct]
  apply Bool.and_eq_false_iff.2
  left
  simp only [List.cons_append, List.isPrefixOf]
  apply Bool.and_eq_false_iff.2
  left
  have hpc : ('p' == c) = false := by
    apply beq_eq_false_iff_ne.2
    intro h
    rw [← h] at hd
    exact absurd hd (by decide)
  simp [hpc]

theorem foldl_renameStep_mem (x : String) :
    ∀ (l : List String) (d : Finset String),
      (∀ a ∈ l, ∀ n, extractPageNum a = some n → canonicalName n ∉ l) →
      (x ∈ l.foldl renameStep d ↔
        (x ∈ d ∧ (x ∉ l ∨ extractPageNum x = none)) ∨
        (∃ a ∈ l, ∃ n, extractPageNum a = some n ∧ x = canonicalName n)) := by
  intro l
  induction l with
  | nil =>
    intro d _
    simp
  | cons f fs ih =>
    intro d hT
    have hT' : ∀ a ∈ fs, ∀ n, extractPageNum a = some n → canonicalName n ∉ fs := by
      intro a ha n hn hc
      exact hT a (List.mem_cons_of_mem f ha) n hn (List.mem_cons_of_mem f hc)
    rw [List.foldl_cons]
    cases hf : extractPageNum f with
    | none =>
      have hstep : renameStep d f = d := by simp [renameStep, hf]
      rw [hstep, ih d hT']
      constructor
      · rintro (⟨hxd, hor⟩ | ⟨a, ha, n, hn, hx⟩)
        · left
          refine ⟨hxd, ?_⟩
          rcases hor with hni | hnone
          · by_cases hxf : x = f
            · right
              rw [hxf]
              exact hf
            · left
              intro hmem
              rcases List.mem_cons.1 hmem with h1 | h2
              · exact hxf h1
              · exact hni h2
          · right
            exact hnone
        · exact Or.inr ⟨a, List.mem_cons_of_mem f ha, n, hn, hx⟩
      · rintro (⟨hxd, hor⟩ | ⟨a, ha, n, hn, hx⟩)
        · left
          refine ⟨hxd, ?_⟩
          rcases hor with hni | hnone
          · exact Or.inl fun h => hni (List.mem_cons_of_mem f h)
          · exact Or.inr hnone
        · rcases List.mem_cons.1 ha with rfl | ha'
          · rw [hf] at hn
            cases hn
          · exact Or.inr ⟨a, ha', n, hn, hx⟩
    | some m =>
      have hstep : renameStep d f = insert (canonicalName m) (d.erase f) := by
        simp [renameStep, hf]
      have hcm : canonicalName m ∉ fs := fun hc =>
        hT f (List.mem_cons_self f fs) m hf (List.mem_cons_of_mem f hc)
      rw [hstep, ih _ hT']
      constructor
      · rintro (⟨hxd', hor⟩ | ⟨a, ha, n, hn, hx⟩)
        · rcases Finset.mem_insert.1 hxd' with hxc | hxe
          · exact Or.inr ⟨f, List.mem_cons_self f fs, m, hf, hxc⟩
          · have hxf : x ≠ f := (Finset.mem_erase.1 hxe).1
            have hxd : x ∈ d := (Finset.mem_erase.1 hxe).2
            left
            refine ⟨hxd, ?_⟩
            rcases hor with hni | hnone
            · left
              intro hmem
              rcases List.mem_cons.1 hmem with h1 | h2
              · exact hxf h1
              · exact hni h2
            · exact Or.inr hnone
        · exact Or.inr ⟨a, List.mem_cons_of_mem f ha, n, hn, hx⟩
      · rintro (⟨hxd, hor⟩ | ⟨a, ha, n, hn, hx⟩)
        · rcases hor with hni | hnone
          · have hxf : x ≠ f := fun h => hni (h ▸ List.mem_cons_self f fs)
            left
            exact ⟨Finset.mem_insert_of_mem (Finset.mem_erase.2 ⟨hxf, hxd⟩),
              Or.inl fun h => hni (List.mem_cons_of_mem f h)⟩
          · have hxf : x ≠ f := by
              intro h
              rw [h, hf] at hnone
              cases hnone
            left
            exact ⟨Finset.mem_insert_of_mem (Finset.mem_erase.2 ⟨hxf, hxd⟩),
              Or.inr hnone⟩
        · rcases List.mem_cons.1 ha with rfl | ha'
          · rw [hf] at hn
            have hnm : n = m := (Option.some_inj.1 hn).symm
            left
            rw [hx, hnm]
            exact ⟨Finset.mem_insert_self _ _, Or.inl hcm⟩
          · exact Or.inr ⟨a, ha', n, hn, hx⟩

/-- Membership characterisation of the Stage B rename pass: a file is in the
directory afterwards iff it was there before and was not renamed away, or it
is the canonical name extracted from some matching file. -/
theorem mem_renamePass (d : Finset String) (x : String) :
    x ∈ renamePass d ↔
      (x ∈ d ∧ (globPagePng x = false ∨ extractPageNum x = none)) ∨
      (∃ a ∈ d, globPagePng a = true ∧
        ∃ n, extractPageNum a = some n ∧ x = canonicalName n) := by
  rw [renamePass]
  have hmem : ∀ y : String,
      y ∈ (d.filter fun n => globPagePng n).sort (· ≤ ·) ↔
        y ∈ d ∧ globPagePng y = true := by
    intro y
    rw [Finset.mem_sort, Finset.mem_filter]
  have hT : ∀ a ∈ (d.filter fun n => globPagePng n).sort (· ≤ ·),
      ∀ n, extractPageNum a = some n →
        canonicalName n ∉ (d.filter fun n => globPagePng n).sort (· ≤ ·) := by
    intro a _ n _ hc
    have h := ((hmem _).1 hc).2
    rw [glob_canonicalName] at h
    cases h
  rw [foldl_renameStep_mem x _ d hT]
  constructor
  · rintro (⟨hxd, hor⟩ | ⟨a, ha, n, hn, hx⟩)
    · left
      refine ⟨hxd, ?_⟩
      rcases hor with hni | hnone
      · left
        cases hg : globPagePng x with
        | false => rfl
        | true => exact absurd ((hmem x).2 ⟨hxd, hg⟩) hni
      · exact Or.inr hnone
    · have ha' := (hmem a).1 ha
      exact Or.inr ⟨a, ha'.1, ha'.2, n, hn, hx⟩
  · rintro (⟨hxd, hor⟩ | ⟨a, ha, hg, n, hn, hx⟩)
    · left
      refine ⟨hxd, ?_⟩
      rcases hor with hgf | hnone
      · left
        intro hmem'
        rw [((hmem x).1 hmem').2] at hgf
        cases hgf
      · exact Or.inr hnone
    · exact Or.inr ⟨a, (hmem a).2 ⟨ha, hg⟩, n, hn, hx⟩

/-- C2 counterexample: `pdftoppm`-style outputs are renamed to their
extracted page numbers, so a rasterizer output set `{page-2.png}` yields
`{2.png}`, which is not `{1.png .. N.png}` for any `N`. -/
theorem C2_counterexample :
    ¬ ∃ N : Nat, renamePass ({"page-2.png"} : Finset String) =
        Finset.image canonicalName (Finset.Icc 1 N) := by
  rintro ⟨N, h⟩
  have h2 : ("2.png" : String) ∈ renamePass ({"page-2.png"} : Finset String) := by
    rw [mem_renamePass]
    right
    refine ⟨"page-2.png", by simp, by decide, 2, by decide, by decide⟩
  rw [h] at h2
  rw [Finset.mem_image] at h2
  obtain ⟨k, hk, _⟩ := h2
  have hN : 1 ≤ N := by
    have := Finset.mem_Icc.1 hk
    omega
  have h1 : ("1.png" : String) ∈ Finset.image canonicalName (Finset.Icc 1 N) :=
    Finset.mem_image.2 ⟨1, Finset.mem_Icc.2 ⟨le_refl 1, hN⟩, by decide⟩
  rw [← h, mem_renamePass] at h1
  rcases h1 with ⟨hmem, _⟩ | ⟨a, ha, _, n, hn, hx⟩
  · exact absurd (Finset.mem_singleton.1 hmem) (by decide)
  · have ha' : a = "page-2.png" := Finset.mem_singleton.1 ha
    rw [ha', show extractPageNum "page-2.png" = some 2 from by decide] at hn
    have hn2 : n = 2 := (Option.some_inj.1 hn).symm
    rw [hn2] at hx
    exact absurd hx (by decide)

/-- C2 (amended): after the Stage B rename pass, when the rasterizer output
set is exactly `page-1.png .. page-N.png`, the resulting directory is exactly
the canonical set `1.png .. N.png`; and any file that does not match the
`page-*.png` glob or whose name the regex search does not match is left in
place (at the filename level). -/
theorem C2_rename_correct :
    (∀ N : Nat, renamePass (Finset.image nativeName (Finset.Icc 1 N)) =
        Finset.image canonicalName (Finset.Icc 1 N)) ∧
    (∀ (d : Finset String) (f : String), f ∈ d →
      (globPagePng f = false ∨ extractPageNum f = none) → f ∈ renamePass d) := by
  constructor
  · intro N
    ext x
    rw [mem_renamePass]
    constructor
    · rintro (⟨hxd, hor⟩ | ⟨a, ha, _, n, hn, hx⟩)
      · obtain ⟨k, _, hk⟩ := Finset.mem_image.1 hxd
        rcases hor with hg | he
        · rw [← hk, glob_nativeName] at hg
          cases hg
        · rw [← hk, extract_nativeName] at he
          cases he
      · obtain ⟨k, hkI, hk⟩ := Finset.mem_image.1 ha
        rw [← hk, extract_nativeName] at hn
        have : k = n := Option.some_inj.1 hn
        exact Finset.mem_image.2 ⟨k, hkI, by rw [hx, this]⟩
    · intro hx
      obtain ⟨k, hkI, hk⟩ := Finset.mem_image.1 hx
      right
      exact ⟨nativeName k, Finset.mem_image.2 ⟨k, hkI, rfl⟩, glob_nativeName k, k,
        extract_nativeName k, hk.symm⟩
  · intro d f hfd hor
    rw [mem_renamePass]
    exact Or.inl ⟨hfd, hor⟩

/-- Witness for `C2_rename_correct` at concrete inputs. -/
theorem C2_rename_correct_witness :
    renamePass (Finset.image nativeName (Finset.Icc 1 3)) =
      Finset.image canonicalName (Finset.Icc 1 3) ∧
    ("notes.txt" : String) ∈ renamePass ({"notes.txt", "page-1.png"} : Finset String) :=
  ⟨C2_rename_correct.1 3,
    C2_rename_correct.2 _ "notes.txt" (by simp) (Or.inr (by decide))⟩

theorem renamePass_example :
    renamePass ({"page-1.png", "page-x.png"} : Finset String) =
      ({"1.png", "page-x.png"} : Finset String) := by
  ext x
  rw [mem_renamePass]
  simp only [Finset.mem_insert, Finset.mem_singleton]
  constructor
  · rintro (⟨hxd, hor⟩ | ⟨a, ha, _, n, hn, hx⟩)
    · rcases hxd with rfl | rfl
      · rcases hor with hg | he
        · exact absurd hg (by decide)
        · exact absurd he (by decide)
      · exact Or.inr rfl
    · rcases ha with rfl | rfl
      · rw [show extractPageNum "page-1.png" = some 1 from by decide] at hn
        have hn1 : n = 1 := (Option.some_inj.1 hn).symm
        rw [hn1] at hx
        exact Or.inl (by rw [hx]; decide)
      · rw [show extractPageNum "page-x.png" = none from by decide] at hn
        cases hn
  · rintro (rfl | rfl)
    · right
      exact ⟨"page-1.png", Or.inl rfl, by decide, 1, by decide, by decide⟩
    · left
      exact ⟨Or.inr rfl, Or.inr (by decide)⟩

/-- C4 counterexample: on Stage B success the code reports
`len(sorted(self.png_dir.glob("*.png")))`, the count of all `.png` files; if
the rasterizer output directory was `{page-1.png, page-x.png}` the final
directory is `{1.png, page-x.png}`, the report says 2, but only one file is
a canonical (bare-number) image. -/
theorem C4_counterexample :
    (pdf_to_png false 0 "" ({"page-1.png", "page-x.png"} : Finset String)).reported ≠
      some (((pdf_to_png false 0 ""
        ({"page-1.png", "page-x.png"} : Finset String)).dir.filter
          fun s => isBareNumberPng s).card) := by
  have h : pdf_to_png false 0 "" ({"page-1.png", "page-x.png"} : Finset String) =
      { ok := true, dir := ({"1.png", "page-x.png"} : Finset String),
        reported := some (countPng ({"1.png", "page-x.png"} : Finset String)),
        log := ["  ✓ Created " ++
          Nat.repr (countPng ({"1.png", "page-x.png"} : Finset String)) ++
          " PNG images"] } := by
    rw [pdf_to_png]
    simp only [if_neg (by decide : ¬ (false : Bool) = true), if_neg (by decide : ¬ (0 : Nat) ≠ 0),
      renamePass_example]
  rw [h]
  decide

theorem isBare_globPng {s : String} (h : isBareNumberPng s = true) : globPng s = true := by
  rw [isBareNumberPng, Bool.and_eq_true, Bool.and_eq_true] at h
  exact h.1.1

/-- C4 (amended): on Stage B success the reported count is the number of all
`*.png` files in the final directory; it equals the number of canonical
(bare-number) images exactly when every `.png` file there is canonical. -/
theorem C4_count_amended :
    (∀ (e : String) (d : Finset String),
      (pdf_to_png false 0 e d).reported = some (countPng (pdf_to_png false 0 e d).dir)) ∧
    (∀ (e : String) (d : Finset String),
      (∀ f ∈ (pdf_to_png false 0 e d).dir, globPng f = true → isBareNumberPng f = true) →
      (pdf_to_png false 0 e d).reported =
        some (((pdf_to_png false 0 e d).dir.filter fun s => isBareNumberPng s).card)) := by
  have hval : ∀ (e : String) (d : Finset String),
      pdf_to_png false 0 e d =
        { ok := true, dir := renamePass d, reported := some (countPng (renamePass d)),
          log := ["  ✓ Created " ++ Nat.repr (countPng (renamePass d)) ++ " PNG images"] } := by
    intro e d
    rw [pdf_to_png]
    simp
  constructor
  · intro e d
    rw [hval]
  · intro e d hall
    rw [hval] at hall ⊢
    simp only
    have hfilter : (renamePass d).filter (fun s => globPng s) =
        (renamePass d).filter (fun s => isBareNumberPng s) := by
      apply Finset.filter_congr
      intro x hx
      constructor
      · intro hg
        exact hall x hx hg
      · intro hb
        exact isBare_globPng hb
    rw [countPng, hfilter]

/-- Witness for `C4_count_amended` at a concrete input. -/
theorem C4_count_amended_witness :
    (pdf_to_png false 0 "" ({"page-1.png"} : Finset String)).reported =
      some (((pdf_to_png false 0 "" ({"page-1.png"} : Finset String)).dir.filter
        fun s => isBareNumberPng s).card) := by
  apply C4_count_amended.2 "" ({"page-1.png"} : Finset String)
  intro f hf _
  have h1 : pdf_to_png false 0 "" ({"page-1.png"} : Finset String) =
      { ok := true, dir := renamePass ({"page-1.png"} : Finset String),
        reported := some (countPng (renamePass ({"page-1.png"} : Finset String))),
        log := ["  ✓ Created " ++
          Nat.repr (countPng (renamePass ({"page-1.png"} : Finset String))) ++
          " PNG images"] } := by
    rw [pdf_to_png]
    simp
  rw [h1] at hf
  simp only at hf
  rw [mem_renamePass] at hf
  rcases hf with ⟨hmem, hor⟩ | ⟨a, ha, _, n, hn, hx⟩
  · have : f = "page-1.png" := Finset.mem_singleton.1 hmem
    rcases hor with hg | he
    · rw [this] at hg
      exact absurd hg (by decide)
    · rw [this] at he
      exact absurd he (by decide)
  · have ha' : a = "page-1.png" := Finset.mem_singleton.1 ha
    rw [ha', show extractPageNum "page-1.png" = some 1 from by decide] at hn
    have hn1 : n = 1 := (Option.some_inj.1 hn).symm
    rw [hn1] at hx
    rw [hx]
    decide

/-- C1 counterexample: with Stages A and B succeeding but the `nougat`
executable not resolvable (`which nougat` exits 1), `_run_nougat` returns
`False` (src/main.py lines 136–140) and `convert` returns 1 at step 3
(lines 52–53): the run exits 1, Stage D never runs, and no output document
is written — contradicting "always proceeds to Stage D" and "completes
successfully (exit code 0)". -/
theorem C1_counterexample :
    (convert ⟨true, false, 0, "", ∅, false, 1, 0, [], true, "doc"⟩).exitCode = 1 ∧
    Stage.D ∉ (convert ⟨true, false, 0, "", ∅, false, 1, 0, [], true, "doc"⟩).stages ∧
    (convert ⟨true, false, 0, "", ∅, false, 1, 0, [], true, "doc"⟩).rmd = none := by
  decide

/-- C1 (amended): when Stages A and B succeed, the pipeline proceeds to
Stage D whenever the OCR executable is resolvable (or the stage's `try`
block raised, which is swallowed), regardless of the OCR tool's exit code or
output; but when `which nougat` exits non-zero (and nothing raised), the run
returns exit code 1 after Stage C and Stage D is not reached. -/
theorem C1_stageC_amended (env : RunEnv) (hcopy : env.copyOk = true)
    (hok : (pdf_to_png env.rasterMissing env.rasterExit env.rasterErr env.pngAfterTool).ok
      = true) :
    ((env.ocrRaised = true ∨ env.whichExit = 0) → Stage.D ∈ (convert env).stages) ∧
    (env.ocrRaised = false → env.whichExit ≠ 0 →
      convert env = ⟨1, [Stage.A, Stage.B, Stage.C], none⟩) := by
  constructor
  · intro hor
    have hrn : run_nougat env = true := by
      rcases hor with hr | hw
      · simp [run_nougat, hr]
      · simp [run_nougat, hw]
    rw [convert]
    simp only [hcopy, hok, hrn, Bool.true_eq_false, if_false, if_neg]
    split
    · simp
    · simp
  · intro hr hw
    have hrn : run_nougat env = false := by
      simp [run_nougat, hr, hw]
    rw [convert]
    simp [hcopy, hok, hrn]

/-- Witness for `C1_stageC_amended` at concrete environments. -/
theorem C1_stageC_amended_witness :
    Stage.D ∈ (convert ⟨true, false, 0, "", ∅, false, 0, 2, [], true, "doc"⟩).stages ∧
    convert ⟨true, false, 0, "", ∅, false, 1, 0, [], false, "doc"⟩ =
      ⟨1, [Stage.A, Stage.B, Stage.C], none⟩ :=
  ⟨(C1_stageC_amended ⟨true, false, 0, "", ∅, false, 0, 2, [], true, "doc"⟩
      rfl (by decide)).1 (Or.inr rfl),
   (C1_stageC_amended ⟨true, false, 0, "", ∅, false, 1, 0, [], false, "doc"⟩
      rfl (by decide)).2 rfl (by decide)⟩

/-- C9: Stage B is fatal.  A missing rasterizer executable or a non-zero
exit makes `_pdf_to_png` return `False` (on non-zero exit the printed report
contains the tool's error stream), and `convert` then returns 1 having run
only Stages A and B. -/
theorem C9_stageB_fatal :
    (∀ (c : Nat) (e : String) (d : Finset String),
      (pdf_to_png true c e d).ok = false) ∧
    (∀ (c : Nat) (e : String) (d : Finset String), c ≠ 0 →
      (pdf_to_png false c e d).ok = false ∧
      ("  ✗ pdftoppm failed: " ++ e) ∈ (pdf_to_png false c e d).log) ∧
    (∀ env : RunEnv, env.copyOk = true →
      (pdf_to_png env.rasterMissing env.rasterExit env.rasterErr env.pngAfterTool).ok
        = false →
      convert env = ⟨1, [Stage.A, Stage.B], none⟩) := by
  refine ⟨?_, ?_, ?_⟩
  · intro c e d
    simp [pdf_to_png]
  · intro c e d hc
    constructor
    · simp [pdf_to_png, hc]
    · simp [pdf_to_png, hc]
  · intro env hcopy hok
    rw [convert]
    simp [hcopy, hok]

/-- Witness for `C9_stageB_fatal` at concrete inputs. -/
theorem C9_stageB_fatal_witness :
    ((pdf_to_png false 3 "boom" (∅ : Finset String)).ok = false ∧
      ("  ✗ pdftoppm failed: " ++ "boom") ∈ (pdf_to_png false 3 "boom" (∅ : Finset String)).log) ∧
    convert ⟨true, true, 0, "", ∅, false, 0, 0, [], true, "doc"⟩ =
      ⟨1, [Stage.A, Stage.B], none⟩ :=
  ⟨C9_stageB_fatal.2.1 3 "boom" ∅ (by decide),
   C9_stageB_fatal.2.2 ⟨true, true, 0, "", ∅, false, 0, 0, [], true, "doc"⟩
     rfl (by decide)⟩

/-- C3 counterexample: `_generate_base_rmd` reads `list(glob("*.mmd"))[0]`
without sorting, i.e. the first transcript in directory-enumeration order;
for an enumeration `[b.mmd, a.mmd]` the lexically first transcript is
`a.mmd`, but the body is built from `b.mmd`'s text. -/
theorem C3_counterexample :
    lexFirstMmd [("b.mmd", "B"), ("a.mmd", "A")] = some ("a.mmd", "A") ∧
    rmdBody [("b.mmd", "B"), ("a.mmd", "A")] ∅ ≠
      transcriptMarker ++ (rstrip "A" ++ "\n") := by
  constructor
  · decide
  · decide

/-- C3 (amended): the body is built from the first `.mmd` file in the
directory-enumeration (glob) order, whose text is right-stripped with
exactly one newline appended after the literal transcript marker; this
coincides with the lexically first transcript whenever at most one
transcript exists. -/
theorem C3_transcript_amended (listing : List (String × String))
    (pngDir : Finset String) (nm text : String) (rest : List (String × String))
    (h : listing.filter (fun f => globMmd f.1) = (nm, text) :: rest) :
    rmdBody listing pngDir = transcriptMarker ++ (rstrip text ++ "\n") ∧
    (rest = [] → lexFirstMmd listing = some (nm, text)) := by
  constructor
  · rw [rmdBody, h]
  · intro hrest
    rw [lexFirstMmd, h, hrest]
    rfl

/-- Witness for `C3_transcript_amended` at a concrete enumeration. -/
theorem C3_transcript_amended_witness :
    rmdBody [("t.mmd", "hello  ")] ∅ = transcriptMarker ++ (rstrip "hello  " ++ "\n") ∧
    (([] : List (String × String)) = [] →
      lexFirstMmd [("t.mmd", "hello  ")] = some ("t.mmd", "hello  ")) :=
  C3_transcript_amended [("t.mmd", "hello  ")] ∅ "t.mmd" "hello  " [] (by decide)

/-- C5: when no `.mmd` transcript exists, the successful run's output
document is the header followed by the placeholder section containing the
literal `*.png` count of the rasterized-pages directory (as left by the
Stage B rename pass). -/
theorem C5_placeholder (env : RunEnv) (hcopy : env.copyOk = true)
    (hmiss : env.rasterMissing = false) (hexit : env.rasterExit = 0)
    (hrn : run_nougat env = true) (hw : env.writeOk = true)
    (hmmd : (env.nougatListing.filter fun f => globMmd f.1) = []) :
    convert env = ⟨0, [Stage.A, Stage.B, Stage.C, Stage.D],
      some (rmdHeader env.pdfName ++
        ("\n<!-- Content Placeholder -->\n\n" ++ "## Document Pages\n\n" ++
          ("_OCR transcript not available. Document has " ++
            Nat.repr (countPng (renamePass env.pngAfterTool)) ++ " pages._\n\n")))⟩ := by
  have hb : pdf_to_png env.rasterMissing env.rasterExit env.rasterErr env.pngAfterTool =
      { ok := true, dir := renamePass env.pngAfterTool,
        reported := some (countPng (renamePass env.pngAfterTool)),
        log := ["  ✓ Created " ++ Nat.repr (countPng (renamePass env.pngAfterTool)) ++
          " PNG images"] } := by
    rw [hmiss, hexit, pdf_to_png]
    simp
  have hg : generate_base_rmd env.pdfName env.nougatListing
      (renamePass env.pngAfterTool) env.writeOk =
      (true, some (rmdHeader env.pdfName ++
        ("\n<!-- Content Placeholder -->\n\n" ++ "## Document Pages\n\n" ++
          ("_OCR transcript not available. Document has " ++
            Nat.repr (countPng (renamePass env.pngAfterTool)) ++ " pages._\n\n")))) := by
    rw [generate_base_rmd, hw, if_pos rfl, rmdBody, hmmd]
  rw [convert]
  simp only [hcopy, hb, hrn, hg]
  simp

/-- Witness for `C5_placeholder` at a concrete environment. -/
theorem C5_placeholder_witness :
    convert ⟨true, false, 0, "", ∅, false, 0, 0, [], true, "doc"⟩ =
      ⟨0, [Stage.A, Stage.B, Stage.C, Stage.D],
        some (rmdHeader "doc" ++
          ("\n<!-- Content Placeholder -->\n\n" ++ "## Document Pages\n\n" ++
            ("_OCR transcript not available. Document has " ++
              Nat.repr (countPng (renamePass (∅ : Finset String))) ++ " pages._\n\n")))⟩ :=
  C5_placeholder ⟨true, false, 0, "", ∅, false, 0, 0, [], true, "doc"⟩
    rfl rfl rfl (by decide) rfl rfl

/-- C6: the entry point resolves a relative path against the current working
directory first, and returns failure (exit code 1) without invoking the
pipeline when the resolved path does not exist or its extension is not a
case-insensitive `.pdf`. -/
theorem C6_input_validation (cwd arg : String) (fsE : String → Bool) (env : RunEnv)
    (hor : fsE (resolvePath cwd arg) = false ∨
      lowerStr (suffixOf (resolvePath cwd arg)) ≠ ".pdf") :
    get_pdf_input cwd arg fsE = none ∧ mainRun cwd arg fsE env = (1, false, []) := by
  have hg : get_pdf_input cwd arg fsE = none := by
    rw [get_pdf_input]
    rcases hor with h | h
    · simp [h]
    · by_cases he : fsE (resolvePath cwd arg) = false
      · simp [he]
      · simp [he, h]
  exact ⟨hg, by rw [mainRun, hg]⟩

/-- Witness for `C6_input_validation`: a wrong-extension argument. -/
theorem C6_input_validation_witness :
    get_pdf_input "/home/user" "report.txt" (fun _ => true) = none ∧
    mainRun "/home/user" "report.txt" (fun _ => true)
      ⟨true, false, 0, "", ∅, false, 0, 0, [], true, "doc"⟩ = (1, false, []) :=
  C6_input_validation "/home/user" "report.txt" (fun _ => true)
    ⟨true, false, 0, "", ∅, false, 0, 0, [], true, "doc"⟩ (Or.inr (by decide))

/-- C7: for a non-existent input path the run exits 1 and performs no
directory creation: the `mkdir` calls live in `PDFConverter.__init__`, which
`main` reaches only after validation succeeds. -/
theorem C7_no_side_effects (cwd arg : String) (fsE : String → Bool) (env : RunEnv)
    (h : fsE (resolvePath cwd arg) = false) :
    mainRun cwd arg fsE env = (1, false, []) := by
  have hg : get_pdf_input cwd arg fsE = none := by
    rw [get_pdf_input]
    simp [h]
  rw [mainRun, hg]

/-- Witness for `C7_no_side_effects`: an empty file system. -/
theorem C7_no_side_effects_witness :
    mainRun "/home/user" "missing.pdf" (fun _ => false)
      ⟨true, false, 0, "", ∅, false, 0, 0, [], true, "doc"⟩ = (1, false, []) :=
  C7_no_side_effects "/home/user" "missing.pdf" (fun _ => false)
    ⟨true, false, 0, "", ∅, false, 0, 0, [], true, "doc"⟩ rfl

/-- C8: Stage A.  If the destination already exists the stage succeeds
without copying; otherwise it copies the source value (content plus
metadata) to the destination and touches nothing else; and when the source
exists, running the stage twice equals running it once. -/
theorem C8_copy_idempotent (α : Type) (src dst : String) (fs : String → Option α) :
    ((fs dst).isSome = true → copy_pdf_fs src dst fs = (fs, true)) ∧
    (fs dst = none →
      (copy_pdf_fs src dst fs).1 dst = fs src ∧
      (∀ p, p ≠ dst → (copy_pdf_fs src dst fs).1 p = fs p) ∧
      (copy_pdf_fs src dst fs).2 = true) ∧
    ((fs src).isSome = true →
      copy_pdf_fs src dst (copy_pdf_fs src dst fs).1 = ((copy_pdf_fs src dst fs).1, true)) := by
  refine ⟨?_, ?_, ?_⟩
  · intro h
    rw [copy_pdf_fs, if_pos h]
  · intro h
    have h' : ¬ (fs dst).isSome = true := by
      rw [h]
      simp
    rw [copy_pdf_fs, if_neg h']
    refine ⟨by simp, fun p hp => by simp [hp], rfl⟩
  · intro hsrc
    by_cases hd : (fs dst).isSome = true
    · have h1 : copy_pdf_fs src dst fs = (fs, true) := by
        rw [copy_pdf_fs, if_pos hd]
      rw [h1]
      exact h1
    · have h1 : (copy_pdf_fs src dst fs).1 = fun p => if p = dst then fs src else fs p := by
        rw [copy_pdf_fs, if_neg hd]
      have h2 : ((copy_pdf_fs src dst fs).1 dst).isSome = true := by
        rw [h1]
        simpa using hsrc
      rw [copy_pdf_fs, if_pos h2]

/-- Witness for `C8_copy_idempotent`: repeating the stage is a no-op. -/
theorem C8_copy_idempotent_witness :
    copy_pdf_fs "doc.pdf" "assets/in/doc.pdf"
        (copy_pdf_fs "doc.pdf" "assets/in/doc.pdf"
          (fun p => if p = "doc.pdf" then some 0 else none)).1 =
      ((copy_pdf_fs "doc.pdf" "assets/in/doc.pdf"
          (fun p => if p = "doc.pdf" then some (0 : Nat) else none)).1, true) :=
  (C8_copy_idempotent Nat "doc.pdf" "assets/in/doc.pdf"
    (fun p => if p = "doc.pdf" then some 0 else none)).2.2 (by decide)

/-- C10: Stages B and C operate on the staged copy `assets/in/<name>`: it is
the input-file argument of both tool command lines, the originally supplied
(absolute) path appears in neither, and when a file already exists at the
staged path, Stage A leaves its content in place, so the tools read the
pre-existing staged content. -/
theorem C10_staged_input (p : String) :
    (pdftoppm_cmd p)[4]? = some (copied_pdf p) ∧
    (nougat_cmd p)[1]? = some (copied_pdf p) ∧
    (isAbsolute p = true → p ∉ pdftoppm_cmd p ∧ p ∉ nougat_cmd p) ∧
    (∀ (α : Type) (fs : String → Option α) (c : α),
      fs (copied_pdf p) = some c →
      (copy_pdf_fs p (copied_pdf p) fs).1 (copied_pdf p) = some c) := by
  refine ⟨rfl, rfl, ?_, ?_⟩
  · intro habs
    have hd : p.data.head? = some '/' := by
      rw [isAbsolute] at habs
      exact beq_iff_eq.1 habs
    have hcop : p ≠ copied_pdf p := by
      intro h
      have : (copied_pdf p).data.head? = some 'a' := by
        rw [copied_pdf, strData_append]
        rfl
      rw [h, this] at hd
      cases hd
    constructor
    · intro hmem
      rw [pdftoppm_cmd] at hmem
      rcases List.mem_cons.1 hmem with rfl | hmem
      · cases hd
      rcases List.mem_cons.1 hmem with rfl | hmem
      · cases hd
      rcases List.mem_cons.1 hmem with rfl | hmem
      · cases hd
      rcases List.mem_cons.1 hmem with rfl | hmem
      · cases hd
      rcases List.mem_cons.1 hmem with heq | hmem
      · exact hcop heq
      rcases List.mem_cons.1 hmem with rfl | hmem
      · cases hd
      cases hmem
    · intro hmem
      rw [nougat_cmd] at hmem
      rcases List.mem_cons.1 hmem with rfl | hmem
      · cases hd
      rcases List.mem_cons.1 hmem with heq | hmem
      · exact hcop heq
      rcases List.mem_cons.1 hmem with rfl | hmem
      · cases hd
      rcases List.mem_cons.1 hmem with rfl | hmem
      · cases hd
      rcases List.mem_cons.1 hmem with rfl | hmem
      · cases hd
      cases hmem
  · intro α fs c h
    have h' : (fs (copied_pdf p)).isSome = true := by
      rw [h]
      rfl
    rw [copy_pdf_fs, if_pos h']
    exact h

/-- Witness for `C10_staged_input` at a concrete absolute path and a
pre-existing staged file with content distinct from the source's. -/
theorem C10_staged_input_witness :
    ("/tmp/x.pdf" : String) ∉ pdftoppm_cmd "/tmp/x.pdf" ∧
    (copy_pdf_fs "/tmp/x.pdf" (copied_pdf "/tmp/x.pdf")
      (fun q => if q = copied_pdf "/tmp/x.pdf" then some 7
        else if q = "/tmp/x.pdf" then some 5 else none)).1
      (copied_pdf "/tmp/x.pdf") = some (7 : Nat) :=
  ⟨((C10_staged_input "/tmp/x.pdf").2.2.1 (by decide)).1,
   (C10_staged_input "/tmp/x.pdf").2.2.2 Nat
     (fun q => if q = copied_pdf "/tmp/x.pdf" then some 7
       else if q = "/tmp/x.pdf" then some 5 else none) 7 (by simp)⟩
